import Mathlib

/-!
Verification development for the Fama–French 3-factor teaching pipeline
(`src/FamaFrench3Factors.py`).

The computational core of the program is three functions:

* `generate_ff_data(months=60)` — seeds the process-wide numpy RNG with 42
  and draws three normal factor columns (`Mkt-RF`, `SMB`, `HML`);
* `fama_french_model(params, factors)` — computes
  `alpha + beta_mkt*Mkt + beta_smb*SMB + beta_hml*HML + normal(0, noise, N)`,
  the noise being drawn unseeded from the same process-wide RNG;
* `run_regression(stock_returns, factors, rf)` — subtracts `rf`, appends an
  intercept column to the three factor columns and fits OLS.

Numbers are embedded as exact rationals (the Python floats are abstracted to
exact field arithmetic).  The process-wide numpy RNG is embedded as a state
`RNGState`: an abstract stream of standard-normal draws together with a
position; `np.random.seed n` replaces the stream by `seedStream n` (the
seed-indexed family of streams is a parameter of the development, since the
actual MT19937/Box–Muller outputs are irrational reals with no exact
embedding) and resets the position.  `np.random.normal loc scale size`
consumes `size` draws `z` and returns `loc + scale * z`, advancing the
position — this is exact for the affine structure of normal sampling.
`np.sqrt 12`, which appears only inside the factor-generation scale
constants, is likewise carried as a parameter `sqrt12`.
-/

open Matrix

/-- Error taxonomy of the spec: bad period count, series-length mismatch,
rank-deficient regression design. -/
inductive ErrKind where
  | InvalidArgument
  | ShapeMismatch
  | SingularDesign
deriving DecidableEq, Repr

instance {ε α : Type _} [DecidableEq ε] [DecidableEq α] :
    DecidableEq (Except ε α) := fun a b =>
  match a, b with
  | .error e, .error e' =>
      if h : e = e' then isTrue (by rw [h])
      else isFalse fun hc => h (Except.error.inj hc)
  | .error _, .ok _ => isFalse fun hc => Except.noConfusion hc
  | .ok _, .error _ => isFalse fun hc => Except.noConfusion hc
  | .ok x, .ok y =>
      if h : x = y then isTrue (by rw [h])
      else isFalse fun hc => h (Except.ok.inj hc)

/-- The process-wide numpy random generator: an abstract stream of
standard-normal draws plus the position of the next draw. -/
structure RNGState where
  stream : ℕ → ℚ
  pos : ℕ

/-- `np.random.seed n`: replace the stream by the seed-determined stream and
rewind to position 0.  The incoming state is discarded, which is exactly the
reproducibility-relevant behaviour of seeding. -/
def npSeed (seedStream : ℕ → ℕ → ℚ) (n : ℕ) (_s : RNGState) : RNGState :=
  ⟨seedStream n, 0⟩

/-- `np.random.normal loc scale size`: consume `size` standard-normal draws
`z i` from the stream, return `loc + scale * z i`, and advance the state. -/
def normalDraws (loc scale : ℚ) (size : ℕ) (s : RNGState) : List ℚ × RNGState :=
  ((List.range size).map fun i => loc + scale * s.stream (s.pos + i),
   ⟨s.stream, s.pos + size⟩)

/-- The six user parameters (`st.session_state` keys / the `params` dict).
Field names follow the `params` dict of the source. -/
structure ParameterSet where
  alpha : ℚ
  beta_mkt : ℚ
  beta_smb : ℚ
  beta_hml : ℚ
  risk_free : ℚ
  noise : ℚ
deriving DecidableEq, Repr

/-- The factor DataFrame: three real-valued columns `Mkt-RF`, `SMB`, `HML`.
(The calendar-month index of the source DataFrame carries no numeric
content and is omitted.) -/
structure Factors where
  mkt : List ℚ
  smb : List ℚ
  hml : List ℚ
deriving DecidableEq, Repr

/-- `len(factors)`: the number of rows of the DataFrame. -/
def dfLen (f : Factors) : ℕ := f.mkt.length

/-- A well-formed DataFrame is rectangular: all three columns share one
length. -/
def Factors.wf (f : Factors) : Prop :=
  f.smb.length = f.mkt.length ∧ f.hml.length = f.mkt.length

instance (f : Factors) : Decidable f.wf := by
  unfold Factors.wf; infer_instance

/-- Elementwise sum of two series; adding series of different lengths is the
shape error of the numpy/pandas arithmetic the source relies on. -/
def seriesAdd (xs ys : List ℚ) : Except ErrKind (List ℚ) :=
  if xs.length = ys.length then .ok (List.zipWith (· + ·) xs ys)
  else .error .ShapeMismatch

/-- `reset_parameters` (the Default preset). -/
def reset_parameters : ParameterSet :=
  { alpha := 0.005, beta_mkt := 1.0, beta_smb := 0.2, beta_hml := -0.3,
    risk_free := 0.02, noise := 0.02 }

/-- `set_lab1_parameters` (Lab 1: detecting manager skill). -/
def set_lab1_parameters : ParameterSet :=
  { alpha := 0.005, beta_mkt := 1.0, beta_smb := 0.0, beta_hml := 0.0,
    risk_free := 0.02, noise := 0.01 }

/-- `set_lab2_parameters` (Lab 2: factor timing strategy). -/
def set_lab2_parameters : ParameterSet :=
  { alpha := -0.003, beta_mkt := 1.2, beta_smb := 1.0, beta_hml := 1.1,
    risk_free := 0.03, noise := 0.03 }

/-- `set_lab3_parameters` (Lab 3: crisis period analysis). -/
def set_lab3_parameters : ParameterSet :=
  { alpha := 0.010, beta_mkt := 0.8, beta_smb := -0.7, beta_hml := -1.2,
    risk_free := 0.01, noise := 0.05 }

/-- `generate_ff_data(months)`: seed the RNG with 42, then draw the three
factor columns with the source's per-column means and standard deviations
(`0.05/12`, `0.15/√12`, …).  Modelled from the spec for the input check:
the positivity/integrality validation of the period count happens inside
`pd.date_range`/`np.random.normal` (library code not in this repository);
the spec states "N must be a positive integer, otherwise fails with an
InvalidArgument kind", so the period count is taken as a rational and
guarded by `den = 1 ∧ 1 ≤ months`. -/
def generate_ff_data (seedStream : ℕ → ℕ → ℚ) (sqrt12 : ℚ) (months : ℚ)
    (s : RNGState) : Except ErrKind Factors × RNGState :=
  let s0 := npSeed seedStream 42 s
  if months.den = 1 ∧ 1 ≤ months then
    let n := months.num.toNat
    let (mkt, s1) := normalDraws (0.05 / 12) (0.15 / sqrt12) n s0
    let (smb, s2) := normalDraws (0.03 / 12) (0.10 / sqrt12) n s1
    let (hml, s3) := normalDraws (0.04 / 12) (0.12 / sqrt12) n s2
    (.ok ⟨mkt, smb, hml⟩, s3)
  else (.error .InvalidArgument, s0)

/-- `fama_french_model(params, factors)`: draw `len(factors)` unseeded noise
values `normal(0, params.noise, ·)` and form
`alpha + beta_mkt*Mkt + beta_smb*SMB + beta_hml*HML + noise`, summed
elementwise left to right as in the source expression. -/
def fama_french_model (p : ParameterSet) (f : Factors) (s : RNGState) :
    Except ErrKind (List ℚ) × RNGState :=
  let (noise, s') := normalDraws 0 p.noise (dfLen f) s
  let r : Except ErrKind (List ℚ) := do
    let t1 := f.mkt.map fun x => p.alpha + p.beta_mkt * x
    let t2 ← seriesAdd t1 (f.smb.map fun x => p.beta_smb * x)
    let t3 ← seriesAdd t2 (f.hml.map fun x => p.beta_hml * x)
    seriesAdd t3 noise
  (r, s')

/-- The columns of the OLS design matrix
`sm.add_constant(factors[['Mkt-RF', 'SMB', 'HML']])`: an intercept column of
ones followed by the three factor columns. -/
def designCol (f : Factors) : Fin 4 → List ℚ :=
  ![List.replicate (dfLen f) 1, f.mkt, f.smb, f.hml]

/-- Dot product of two series. -/
def dotL (xs ys : List ℚ) : ℚ := (List.zipWith (· * ·) xs ys).sum

/-- The Gram matrix `XᵀX` of the design. -/
def gramL (f : Factors) : Matrix (Fin 4) (Fin 4) ℚ :=
  Matrix.of fun j k => dotL (designCol f j) (designCol f k)

/-- The moment vector `Xᵀy`. -/
def xty (f : Factors) (y : List ℚ) : Fin 4 → ℚ := fun j => dotL (designCol f j) y

/-- The slice of the statsmodels results object that the program and the
claims consume: the coefficient vector `model.params` (the intercept
`const` first, then the three factor betas), `model.rsquared`, and the
fitted values `model.predict()`. -/
structure RegressionResult where
  const : ℚ
  mktBeta : ℚ
  smbBeta : ℚ
  hmlBeta : ℚ
  rsquared : ℚ
  fitted : List ℚ
deriving DecidableEq, Repr

/-- Executable 4×4 determinant by cofactor expansion along the first row;
proved equal to `Matrix.det` in `det4_eq` below. -/
def det4 (A : Matrix (Fin 4) (Fin 4) ℚ) : ℚ :=
  A 0 0 * (A 1 1 * (A 2 2 * A 3 3 - A 2 3 * A 3 2)
         - A 1 2 * (A 2 1 * A 3 3 - A 2 3 * A 3 1)
         + A 1 3 * (A 2 1 * A 3 2 - A 2 2 * A 3 1))
  - A 0 1 * (A 1 0 * (A 2 2 * A 3 3 - A 2 3 * A 3 2)
         - A 1 2 * (A 2 0 * A 3 3 - A 2 3 * A 3 0)
         + A 1 3 * (A 2 0 * A 3 2 - A 2 2 * A 3 0))
  + A 0 2 * (A 1 0 * (A 2 1 * A 3 3 - A 2 3 * A 3 1)
         - A 1 1 * (A 2 0 * A 3 3 - A 2 3 * A 3 0)
         + A 1 3 * (A 2 0 * A 3 1 - A 2 1 * A 3 0))
  - A 0 3 * (A 1 0 * (A 2 1 * A 3 2 - A 2 2 * A 3 1)
         - A 1 1 * (A 2 0 * A 3 2 - A 2 2 * A 3 0)
         + A 1 2 * (A 2 0 * A 3 1 - A 2 1 * A 3 0))

/-- `run_regression(stock_returns, factors, rf)`: excess returns
`y = stock_returns - rf`, design `X = add_constant(factors)`, OLS fit.
Modelled from the spec for the fit itself: `sm.OLS(y, X).fit()` is
statsmodels library code not in this repository; the spec (§4.3) fixes its
numeric semantics as the standard OLS closed form via the normal equations
`XᵀX β = Xᵀy` with a `SingularDesign` failure when the design matrix is not
of full column rank — detected here by the vanishing of the Gram
determinant `det (XᵀX)`, which over a field is equivalent to column-rank
deficiency.  The normal equations are solved by Cramer's rule; R² is the
centered `1 - SSR/TSS` of a model with intercept; fitted values are `X β`. -/
def run_regression (stock_returns : List ℚ) (f : Factors) (rf : ℚ) :
    Except ErrKind RegressionResult :=
  let n := dfLen f
  let y := stock_returns.map (· - rf)
  let A := gramL f
  if det4 A = 0 then .error .SingularDesign
  else
    let coef : Fin 4 → ℚ := fun j => det4 (A.updateColumn j (xty f y)) / det4 A
    let fitted := (List.range n).map fun i =>
      coef 0 + coef 1 * f.mkt.getD i 0 + coef 2 * f.smb.getD i 0
        + coef 3 * f.hml.getD i 0
    let ybar := y.sum / (n : ℚ)
    .ok { const := coef 0, mktBeta := coef 1, smbBeta := coef 2,
          hmlBeta := coef 3,
          rsquared :=
            1 - (List.zipWith (fun a b => (a - b) ^ 2) y fitted).sum
              / ((y.map fun a => (a - ybar) ^ 2).sum),
          fitted := fitted }

/-! ### The design matrix as a Mathlib matrix, and bridge lemmas -/

/-- The OLS design matrix as a `Matrix` (intercept column, then the three
factor columns), for stating rank properties. -/
def designMatrix (f : Factors) : Matrix (Fin (dfLen f)) (Fin 4) ℚ :=
  Matrix.of fun i j => (designCol f j).getD i 0

theorem getD_lt {l : List ℚ} {i : ℕ} (h : i < l.length) (d : ℚ) :
    l.getD i d = l[i] := List.getD_eq_getElem l d h

theorem dotL_eq_sum : ∀ (n : ℕ) (xs ys : List ℚ), xs.length = n →
    ys.length = n → dotL xs ys = ∑ i : Fin n, xs.getD i 0 * ys.getD i 0 := by
  intro n
  induction n with
  | zero =>
      intro xs ys hx hy
      simp [dotL, List.length_eq_zero.mp hx, List.length_eq_zero.mp hy]
  | succ n ih =>
      intro xs ys hx hy
      cases xs with
      | nil => simp at hx
      | cons x xs =>
          cases ys with
          | nil => simp at hy
          | cons y ys =>
              simp only [List.length_cons, Nat.add_right_cancel_iff] at hx hy
              have hrec := ih xs ys hx hy
              simp [dotL, Fin.sum_univ_succ, List.zipWith_cons_cons,
                List.sum_cons] at hrec ⊢
              rw [hrec]

theorem designCol_length {f : Factors} (hwf : f.wf) (j : Fin 4) :
    (designCol f j).length = dfLen f := by
  fin_cases j <;> simp [designCol, dfLen, hwf.1, hwf.2]

theorem gramL_apply {f : Factors} (hwf : f.wf) (j k : Fin 4) :
    gramL f j k =
      ∑ i : Fin (dfLen f), designMatrix f i j * designMatrix f i k :=
  dotL_eq_sum (dfLen f) _ _ (designCol_length hwf j) (designCol_length hwf k)

theorem xty_apply {f : Factors} (hwf : f.wf) {y : List ℚ}
    (hy : y.length = dfLen f) (j : Fin 4) :
    xty f y j = ∑ i : Fin (dfLen f), designMatrix f i j * y.getD i 0 :=
  dotL_eq_sum (dfLen f) _ _ (designCol_length hwf j) hy

theorem mulVec_apply4 (M : Matrix (Fin 4) (Fin 4) ℚ) (v : Fin 4 → ℚ)
    (j : Fin 4) : (M *ᵥ v) j = ∑ k, M j k * v k := rfl

/-! ### Determinant identities for the executable `det4` -/

theorem det4_updateColumn_zero (A : Matrix (Fin 4) (Fin 4) ℚ) (j : Fin 4) :
    det4 (A.updateColumn j fun _ => 0) = 0 := by
  fin_cases j <;> simp [det4, Matrix.updateColumn_apply]

theorem det4_updateColumn_mulVec (A : Matrix (Fin 4) (Fin 4) ℚ)
    (c : Fin 4 → ℚ) (j : Fin 4) :
    det4 (A.updateColumn j (A *ᵥ c)) = det4 A * c j := by
  fin_cases j <;>
    simp [det4, Matrix.updateColumn_apply, Matrix.mulVec, Matrix.dotProduct,
      Fin.sum_univ_four] <;>
    ring

/-! ### Closed form of the return simulator -/

theorem seriesAdd_ok {xs ys : List ℚ} (h : xs.length = ys.length) :
    seriesAdd xs ys = .ok (List.zipWith (· + ·) xs ys) := by
  simp [seriesAdd, h]

theorem fama_french_model_state (p : ParameterSet) (f : Factors)
    (s : RNGState) :
    (fama_french_model p f s).2 = ⟨s.stream, s.pos + dfLen f⟩ := rfl

theorem fama_french_model_ok (p : ParameterSet) (f : Factors) (s : RNGState)
    (hwf : f.wf) :
    (fama_french_model p f s).1 = .ok ((List.range (dfLen f)).map fun i =>
      p.alpha + p.beta_mkt * f.mkt.getD i 0 + p.beta_smb * f.smb.getD i 0
        + p.beta_hml * f.hml.getD i 0 + p.noise * s.stream (s.pos + i)) := by
  obtain ⟨h1, h2⟩ := hwf
  simp only [fama_french_model, normalDraws, dfLen, Bind.bind, Except.bind,
    seriesAdd, List.length_map, List.length_zipWith, List.length_range, h1,
    h2, Nat.min_self, if_true, eq_self_iff_true]
  refine congrArg Except.ok (List.ext_getElem (by
    simp [List.length_zipWith, h1, h2]) fun i hi₁ hi₂ => ?_)
  have hm : i < f.mkt.length := by
    simpa [List.length_zipWith, h1, h2] using hi₁
  have hs : i < f.smb.length := by omega
  have hh : i < f.hml.length := by omega
  simp [List.getElem_zipWith, List.getElem_map, List.getElem_range,
    List.getD_eq_getElem, hm, hs, hh]

/-! ### Claims about the return simulator -/

/-- Claim C1. For every `ParameterSet` and well-formed `FactorSeries` of length
`N`, `simulate_returns` (`fama_french_model`) returns a sequence of length
`N`, and when `noise = 0` the `i`-th value equals exactly
`alpha + beta_mkt * market[i] + beta_smb * size[i] + beta_hml * value[i]`
(no residual term) for every period `i < N`. -/
theorem simulate_returns_noiseless_exact (p : ParameterSet) (f : Factors)
    (s : RNGState) (hwf : f.wf) (hnoise : p.noise = 0) :
    ∃ rs : List ℚ, (fama_french_model p f s).1 = .ok rs ∧
      rs.length = dfLen f ∧ ∀ i < dfLen f,
        rs.getD i 0 = p.alpha + p.beta_mkt * f.mkt.getD i 0
          + p.beta_smb * f.smb.getD i 0 + p.beta_hml * f.hml.getD i 0 := by
  refine ⟨_, fama_french_model_ok p f s hwf, by simp, fun i hi => ?_⟩
  rw [getD_lt (by simpa using hi)]
  simp [List.getElem_map, List.getElem_range, hnoise, hi]

/-- Witness for C1 at a concrete input. -/
theorem simulate_returns_noiseless_exact_witness :
    (⟨[1, 2], [3, 4], [5, 6]⟩ : Factors).wf ∧
    (⟨1/200, 1, 1/5, -3/10, 1/50, 0⟩ : ParameterSet).noise = 0 ∧
    ∃ rs : List ℚ,
      (fama_french_model ⟨1/200, 1, 1/5, -3/10, 1/50, 0⟩
        ⟨[1, 2], [3, 4], [5, 6]⟩ ⟨fun n => (n : ℚ), 0⟩).1 = .ok rs ∧
      rs.length = dfLen ⟨[1, 2], [3, 4], [5, 6]⟩ ∧
      ∀ i < dfLen ⟨[1, 2], [3, 4], [5, 6]⟩,
        rs.getD i 0 = 1/200 + 1 * ([1, 2].getD i 0)
          + 1/5 * ([3, 4].getD i 0) + (-3/10) * ([5, 6].getD i 0) :=
  ⟨by decide, rfl,
    simulate_returns_noiseless_exact ⟨1/200, 1, 1/5, -3/10, 1/50, 0⟩
      ⟨[1, 2], [3, 4], [5, 6]⟩ ⟨fun n => (n : ℚ), 0⟩ (by decide) rfl⟩

/-- Claim C8. `simulate_returns` fails with a `ShapeMismatch` error exactly
when the series lengths it combines are mismatched (the factor DataFrame is
not rectangular), and has no other error condition: on every well-formed
input it succeeds. -/
theorem simulate_returns_shape (p : ParameterSet) (f : Factors)
    (s : RNGState) :
    (fama_french_model p f s).1 =
      if f.wf then
        .ok ((List.range (dfLen f)).map fun i =>
          p.alpha + p.beta_mkt * f.mkt.getD i 0 + p.beta_smb * f.smb.getD i 0
            + p.beta_hml * f.hml.getD i 0 + p.noise * s.stream (s.pos + i))
      else .error .ShapeMismatch := by
  by_cases hwf : f.wf
  · simp [hwf, fama_french_model_ok p f s hwf]
  · simp only [hwf, if_false]
    by_cases h1 : f.smb.length = f.mkt.length
    · have h2 : ¬ f.mkt.length = f.hml.length := fun h =>
        hwf ⟨h1, h.symm⟩
      simp [fama_french_model, normalDraws, seriesAdd, Bind.bind,
        Except.bind, h1, h2, List.length_zipWith]
    · have h1' : ¬ f.mkt.length = f.smb.length := fun h => h1 h.symm
      simp [fama_french_model, normalDraws, seriesAdd, Bind.bind,
        Except.bind, h1']

/-- Claim C5, amended. The noise draw of `simulate_returns` is unseeded: a
call advances the shared RNG past `N` fresh draws, so two successive calls
with identical arguments read disjoint consecutive segments of the random
stream, and their outputs differ whenever (`noise > 0` and) the fresh draws
differ at some period.  (They coincide exactly when the stream happens to
repeat, so inequality of the two outputs is almost-sure, not universal.) -/
theorem simulate_returns_successive_calls (p : ParameterSet) (f : Factors)
    (s : RNGState) :
    (fama_french_model p f s).2 = ⟨s.stream, s.pos + dfLen f⟩ ∧
    (0 < p.noise → f.wf → ∀ i < dfLen f,
      s.stream (s.pos + i) ≠ s.stream (s.pos + dfLen f + i) →
      (fama_french_model p f s).1 ≠
        (fama_french_model p f (fama_french_model p f s).2).1) := by
  refine ⟨rfl, fun hn hwf i hi hz heq => ?_⟩
  rw [fama_french_model_state,
    fama_french_model_ok p f s hwf,
    fama_french_model_ok p f ⟨s.stream, s.pos + dfLen f⟩ hwf] at heq
  have hl := congrArg (fun l : List ℚ => l.getD i 0) (Except.ok.inj heq)
  simp only at hl
  rw [getD_lt (by simpa using hi), getD_lt (by simpa using hi)] at hl
  simp only [List.getElem_map, List.getElem_range] at hl
  exact hz (mul_left_cancel₀ (ne_of_gt hn) (add_left_cancel hl))

/-- Counterexample to C5 as stated: with `noise = 1 > 0`, a well-formed
one-period factor series and a stream that repeats, two successive calls of
`simulate_returns` with identical arguments return equal sequences, so
"always different" fails. -/
theorem simulate_returns_successive_calls_counterexample :
    0 < (⟨0, 0, 0, 0, 0, 1⟩ : ParameterSet).noise ∧
    (⟨[0], [0], [0]⟩ : Factors).wf ∧ 0 < dfLen ⟨[0], [0], [0]⟩ ∧
    (fama_french_model ⟨0, 0, 0, 0, 0, 1⟩ ⟨[0], [0], [0]⟩
        ⟨fun _ => 0, 0⟩).1 =
      (fama_french_model ⟨0, 0, 0, 0, 0, 1⟩ ⟨[0], [0], [0]⟩
        (fama_french_model ⟨0, 0, 0, 0, 0, 1⟩ ⟨[0], [0], [0]⟩
          ⟨fun _ => 0, 0⟩).2).1 := by
  refine ⟨by norm_num, by decide, by decide, ?_⟩
  simp [fama_french_model, normalDraws, seriesAdd, dfLen, Bind.bind,
    Except.bind, show List.range 1 = [0] from rfl]

/-- Witness for the amended C5 at a concrete input with a non-repeating
stream. -/
theorem simulate_returns_successive_calls_witness :
    0 < (⟨0, 0, 0, 0, 0, 1⟩ : ParameterSet).noise ∧
    (⟨[0], [0], [0]⟩ : Factors).wf ∧
    (fama_french_model ⟨0, 0, 0, 0, 0, 1⟩ ⟨[0], [0], [0]⟩
        ⟨fun n => (n : ℚ), 0⟩).1 ≠
      (fama_french_model ⟨0, 0, 0, 0, 0, 1⟩ ⟨[0], [0], [0]⟩
        (fama_french_model ⟨0, 0, 0, 0, 0, 1⟩ ⟨[0], [0], [0]⟩
          ⟨fun n => (n : ℚ), 0⟩).2).1 :=
  ⟨by norm_num, by decide,
    (simulate_returns_successive_calls ⟨0, 0, 0, 0, 0, 1⟩ ⟨[0], [0], [0]⟩
      ⟨fun n => (n : ℚ), 0⟩).2 (by norm_num) (by decide) 0 (by decide)
      (by norm_num [dfLen])⟩

/-! ### Claims about the factor generator, the presets and the pipeline -/

/-- Claim C9. The four preset operations produce exactly the `ParameterSet`s
of the spec's table, in the order
(alpha, beta_mkt, beta_smb, beta_hml, risk_free, noise). -/
theorem presets_match_table :
    reset_parameters = ⟨0.005, 1.0, 0.2, -0.3, 0.02, 0.02⟩ ∧
    set_lab1_parameters = ⟨0.005, 1.0, 0.0, 0.0, 0.02, 0.01⟩ ∧
    set_lab2_parameters = ⟨-0.003, 1.2, 1.0, 1.1, 0.03, 0.03⟩ ∧
    set_lab3_parameters = ⟨0.010, 0.8, -0.7, -1.2, 0.01, 0.05⟩ :=
  ⟨rfl, rfl, rfl, rfl⟩

theorem ratNumToNat_cast {N : ℚ} (hden : N.den = 1) (hpos : 1 ≤ N) :
    ((N.num.toNat : ℕ) : ℚ) = N := by
  have h0 : 0 ≤ N.num := Rat.num_nonneg.mpr (le_trans zero_le_one hpos)
  have h1 : ((N.num.toNat : ℕ) : ℤ) = N.num := Int.toNat_of_nonneg h0
  have h2 : ((N.num : ℤ) : ℚ) = N := by
    conv_rhs => rw [← Rat.num_div_den N]
    rw [hden]
    simp
  rw [← h2]
  exact_mod_cast congrArg (fun z : ℤ => (z : ℚ)) h1

theorem generate_ff_data_ok (seedStream : ℕ → ℕ → ℚ) (sqrt12 : ℚ) {N : ℚ}
    (hden : N.den = 1) (hpos : 1 ≤ N) (s : RNGState) :
    (generate_ff_data seedStream sqrt12 N s).1 = .ok
      ⟨(List.range N.num.toNat).map fun i =>
          0.05 / 12 + 0.15 / sqrt12 * seedStream 42 i,
        (List.range N.num.toNat).map fun i =>
          0.03 / 12 + 0.10 / sqrt12 * seedStream 42 (N.num.toNat + i),
        (List.range N.num.toNat).map fun i =>
          0.04 / 12 + 0.12 / sqrt12 * seedStream 42
            (N.num.toNat + N.num.toNat + i)⟩ := by
  simp [generate_ff_data, npSeed, normalDraws, hden, hpos]

theorem generate_ff_data_state_independent (seedStream : ℕ → ℕ → ℚ)
    (sqrt12 N : ℚ) (s₁ s₂ : RNGState) :
    generate_ff_data seedStream sqrt12 N s₁ =
      generate_ff_data seedStream sqrt12 N s₂ := by
  by_cases hc : N.den = 1 ∧ 1 ≤ N <;>
    simp [generate_ff_data, npSeed, normalDraws, hc]

/-- Claim C4. For every valid period count `N ≥ 4`, `generate_factors(N)`
returns exactly `N` observations with three fields each (three columns of
length `N`), and any two calls with the same `N` — the seed is fixed at 42
inside the function — return identical factor series, whatever the incoming
RNG states were. -/
theorem generate_factors_reproducible (seedStream : ℕ → ℕ → ℚ)
    (sqrt12 N : ℚ) (hden : N.den = 1) (hN : 4 ≤ N) (s₁ s₂ : RNGState) :
    ∃ fac : Factors,
      (generate_ff_data seedStream sqrt12 N s₁).1 = .ok fac ∧
      (generate_ff_data seedStream sqrt12 N s₂).1 = .ok fac ∧
      (fac.mkt.length : ℚ) = N ∧ (fac.smb.length : ℚ) = N ∧
      (fac.hml.length : ℚ) = N := by
  have h1 : 1 ≤ N := le_trans (by norm_num) hN
  exact ⟨_, generate_ff_data_ok seedStream sqrt12 hden h1 s₁,
    generate_ff_data_ok seedStream sqrt12 hden h1 s₂,
    by simp [ratNumToNat_cast hden h1], by simp [ratNumToNat_cast hden h1],
    by simp [ratNumToNat_cast hden h1]⟩

/-- Witness for C4 at `N = 5`. -/
theorem generate_factors_reproducible_witness :
    ∃ fac : Factors,
      (generate_ff_data (fun a b => (a * b : ℚ)) 7 5 ⟨fun _ => 0, 3⟩).1 =
        .ok fac ∧
      (generate_ff_data (fun a b => (a * b : ℚ)) 7 5
        ⟨fun n => (n : ℚ), 11⟩).1 = .ok fac ∧
      (fac.mkt.length : ℚ) = 5 ∧ (fac.smb.length : ℚ) = 5 ∧
      (fac.hml.length : ℚ) = 5 :=
  generate_factors_reproducible (fun a b => (a * b : ℚ)) 7 5 rfl
    (by norm_num) ⟨fun _ => 0, 3⟩ ⟨fun n => (n : ℚ), 11⟩

/-- Claim C7. `generate_factors(N)` fails with an `InvalidArgument` error for
every period count `N` that is not a positive integer, and succeeds for
every positive integer `N`. -/
theorem generate_factors_input_validation (seedStream : ℕ → ℕ → ℚ)
    (sqrt12 N : ℚ) (s : RNGState) :
    (¬(N.den = 1 ∧ 1 ≤ N) →
      (generate_ff_data seedStream sqrt12 N s).1 = .error .InvalidArgument) ∧
    ((N.den = 1 ∧ 1 ≤ N) →
      ∃ fac, (generate_ff_data seedStream sqrt12 N s).1 = .ok fac) := by
  constructor
  · intro h
    simp [generate_ff_data, npSeed, h]
  · intro h
    exact ⟨_, generate_ff_data_ok seedStream sqrt12 h.1 h.2 s⟩

/-- Witness for C7: `N = 0` is rejected, `N = 60` is accepted. -/
theorem generate_factors_input_validation_witness :
    (generate_ff_data (fun a b => (a * b : ℚ)) 7 0 ⟨fun _ => 0, 0⟩).1 =
      .error .InvalidArgument ∧
    ∃ fac, (generate_ff_data (fun a b => (a * b : ℚ)) 7 60
      ⟨fun _ => 0, 0⟩).1 = .ok fac :=
  ⟨(generate_factors_input_validation (fun a b => (a * b : ℚ)) 7 0
      ⟨fun _ => 0, 0⟩).1 (fun h => absurd h.2 (by norm_num)),
   (generate_factors_input_validation (fun a b => (a * b : ℚ)) 7 60
      ⟨fun _ => 0, 0⟩).2 ⟨rfl, by norm_num⟩⟩

/-- The module-level pipeline of the source (lines 159–168):
`factors = generate_ff_data()` with the default 60 months, then
`stock_returns = fama_french_model(params, factors)`, threading the shared
RNG state through both. -/
def pipelinePass (seedStream : ℕ → ℕ → ℚ) (sqrt12 : ℚ) (p : ParameterSet)
    (s : RNGState) :
    Except ErrKind Factors × Except ErrKind (List ℚ) × RNGState :=
  match generate_ff_data seedStream sqrt12 60 s with
  | (.ok f, s') =>
      let (r, s'') := fama_french_model p f s'
      (.ok f, r, s'')
  | (.error e, s') => (.error e, .error e, s')

/-- Claim C10. `generate_ff_data` reseeds the shared RNG (seed 42) on every
call, so a full pipeline pass — factor generation followed by
`fama_french_model` with the same `ParameterSet` — is fully deterministic:
two passes from arbitrary RNG states produce identical factor series and
identical simulated returns, noise draws included, for every `noise`. -/
theorem pipeline_two_passes_identical (seedStream : ℕ → ℕ → ℚ)
    (sqrt12 : ℚ) (p : ParameterSet) (s₁ s₂ : RNGState) :
    (pipelinePass seedStream sqrt12 p s₁).1 =
      (pipelinePass seedStream sqrt12 p s₂).1 ∧
    (pipelinePass seedStream sqrt12 p s₁).2.1 =
      (pipelinePass seedStream sqrt12 p s₂).2.1 := by
  unfold pipelinePass
  rw [generate_ff_data_state_independent seedStream sqrt12 60 s₁ s₂]
  exact ⟨rfl, rfl⟩

/-! ### Exact-fit theory for the estimator -/

theorem ols_exact_fit {f : Factors} (hwf : f.wf) (rets : List ℚ) (rf : ℚ)
    (c : Fin 4 → ℚ) (hlen : rets.length = dfLen f)
    (hfit : ∀ i < dfLen f, rets.getD i 0 = c 0 + c 1 * f.mkt.getD i 0
      + c 2 * f.smb.getD i 0 + c 3 * f.hml.getD i 0 + rf)
    (hrank : det4 (gramL f) ≠ 0) :
    run_regression rets f rf = .ok
      { const := c 0, mktBeta := c 1, smbBeta := c 2, hmlBeta := c 3,
        rsquared := 1,
        fitted := (List.range (dfLen f)).map fun i =>
          c 0 + c 1 * f.mkt.getD i 0 + c 2 * f.smb.getD i 0
            + c 3 * f.hml.getD i 0 } := by
  have hylen : (rets.map fun x => x - rf).length = dfLen f := by simp [hlen]
  have hXrow : ∀ i : Fin (dfLen f),
      ∑ k, designMatrix f i k * c k = (rets.map fun x => x - rf).getD i 0 := by
    intro i
    have hi : (i : ℕ) < dfLen f := i.isLt
    have h0 : designMatrix f i 0 = (List.replicate (dfLen f) 1).getD i 0 :=
      rfl
    have h0' : designMatrix f i 0 = 1 := by
      rw [h0, getD_lt (by simp [hi])]
      simp
    have hmget : (rets.map fun x => x - rf).getD i 0 = rets.getD i 0 - rf := by
      rw [getD_lt (by simp [hlen, hi]), List.getElem_map,
        getD_lt (by simp [hlen, hi])]
    rw [Fin.sum_univ_four, h0',
      show designMatrix f i 1 = f.mkt.getD i 0 from rfl,
      show designMatrix f i 2 = f.smb.getD i 0 from rfl,
      show designMatrix f i 3 = f.hml.getD i 0 from rfl,
      hmget, hfit i hi]
    ring
  have hxty : xty f (rets.map fun x => x - rf) = gramL f *ᵥ c := by
    funext j
    rw [xty_apply hwf hylen j, mulVec_apply4]
    have hgram : ∀ k, gramL f j k * c k =
        ∑ i : Fin (dfLen f),
          designMatrix f i j * (designMatrix f i k * c k) := by
      intro k
      rw [gramL_apply hwf, Finset.sum_mul]
      exact Finset.sum_congr rfl fun i _ => by ring
    rw [Finset.sum_congr rfl fun k _ => hgram k, Finset.sum_comm]
    exact Finset.sum_congr rfl fun i _ => by
      rw [← Finset.mul_sum, hXrow i]
  have hcoef : ∀ j, det4 ((gramL f).updateColumn j
      (xty f (rets.map fun x => x - rf))) / det4 (gramL f) = c j := by
    intro j
    rw [hxty, det4_updateColumn_mulVec, mul_comm, mul_div_assoc,
      div_self hrank, mul_one]
  have hssr : (List.zipWith (fun a b => (a - b) ^ 2)
      (rets.map fun x => x - rf)
      ((List.range (dfLen f)).map fun i => c 0 + c 1 * f.mkt.getD i 0
        + c 2 * f.smb.getD i 0 + c 3 * f.hml.getD i 0)).sum = 0 := by
    have hz : List.zipWith (fun a b => (a - b) ^ 2)
        (rets.map fun x => x - rf)
        ((List.range (dfLen f)).map fun i => c 0 + c 1 * f.mkt.getD i 0
          + c 2 * f.smb.getD i 0 + c 3 * f.hml.getD i 0) =
        List.replicate (dfLen f) 0 := by
      refine List.ext_getElem (by simp [List.length_zipWith, hlen])
        fun i h1 h2 => ?_
      have hi : i < dfLen f := by
        simpa [List.length_zipWith, hlen] using h1
      have hib : i < rets.length := by omega
      have hr : rets[i] = c 0 + c 1 * f.mkt.getD i 0
          + c 2 * f.smb.getD i 0 + c 3 * f.hml.getD i 0 + rf := by
        rw [← getD_lt hib]
        exact hfit i hi
      simp [List.getElem_zipWith, List.getElem_map, List.getElem_range,
        List.getElem_replicate, hr]
    rw [hz, List.sum_replicate, smul_zero]
  simp only [run_regression, if_neg hrank]
  refine congrArg Except.ok ?_
  rw [hcoef 0, hcoef 1, hcoef 2, hcoef 3, hssr]
  simp

/-- Claim C2, amended. For every sample generated by the simulator with
`noise = 0` from fixed known parameters, and a design of full column rank
(nonvanishing Gram determinant), `estimate` recovers the three betas
exactly, the intercept estimate equals `alpha − risk_free` (the simulator
never adds the risk-free rate, while the estimator subtracts it), and the
reported R² equals exactly 1. -/
theorem estimate_recovers_betas_exactly (p : ParameterSet) (f : Factors)
    (s : RNGState) (rf : ℚ) (rets : List ℚ) (hwf : f.wf)
    (hnoise : p.noise = 0)
    (hrets : (fama_french_model p f s).1 = .ok rets)
    (hrank : det4 (gramL f) ≠ 0) :
    ∃ res : RegressionResult, run_regression rets f rf = .ok res ∧
      res.const = p.alpha - rf ∧ res.mktBeta = p.beta_mkt ∧
      res.smbBeta = p.beta_smb ∧ res.hmlBeta = p.beta_hml ∧
      res.rsquared = 1 := by
  have hok := fama_french_model_ok p f s hwf
  rw [hrets] at hok
  have hretseq := Except.ok.inj hok
  refine ⟨_, ols_exact_fit hwf rets rf
      ![p.alpha - rf, p.beta_mkt, p.beta_smb, p.beta_hml] ?_ ?_ hrank,
    by simp, by simp, by simp, by simp, rfl⟩
  · rw [hretseq]
    simp
  · intro i hi
    rw [hretseq, getD_lt (by simp [hi])]
    simp [List.getElem_map, List.getElem_range, hi, hnoise]
    ring

/-- Counterexample to C2 as stated: a sample generated with `noise = 0`
from the Default preset (alpha `0.005`, betas `1, 0.2, -0.3`), estimated
with `risk_free = 0.02`, has full-rank design and yields an intercept
estimate of `-0.015 = alpha - risk_free`, not the claimed exact `alpha`. -/
theorem estimate_recovers_alpha_counterexample :
    ({ reset_parameters with noise := 0 } : ParameterSet).noise = 0 ∧
    (fama_french_model { reset_parameters with noise := 0 }
      ⟨[1,0,0,0],[0,1,0,0],[0,0,1,0]⟩ ⟨fun _ => 0, 0⟩).1 =
      .ok [201/200, 41/200, -59/200, 1/200] ∧
    det4 (gramL ⟨[1,0,0,0],[0,1,0,0],[0,0,1,0]⟩) ≠ 0 ∧
    ∃ res : RegressionResult,
      run_regression [201/200, 41/200, -59/200, 1/200]
        ⟨[1,0,0,0],[0,1,0,0],[0,0,1,0]⟩
        ({ reset_parameters with noise := 0 } : ParameterSet).risk_free =
        .ok res ∧
      res.const ≠ ({ reset_parameters with noise := 0 } :
        ParameterSet).alpha := by
  refine ⟨rfl, ?_, ?_, ?_⟩
  · norm_num [fama_french_model, normalDraws, seriesAdd, dfLen, Bind.bind,
      Except.bind, reset_parameters, show List.range 4 = [0,1,2,3] from rfl,
      List.zipWith_cons_cons]
  · norm_num [det4, gramL, dotL, designCol, dfLen, Matrix.cons_val_zero,
      Matrix.cons_val_one, Matrix.head_cons, Matrix.cons_val_two,
      Matrix.cons_val_three, Matrix.of_apply, List.zipWith_cons_cons,
      show List.replicate 4 (1:ℚ) = [1,1,1,1] from rfl]
  · refine ⟨_, ols_exact_fit (f := ⟨[1,0,0,0],[0,1,0,0],[0,0,1,0]⟩)
      (by decide) [201/200, 41/200, -59/200, 1/200] _
      ![(-3)/200, 1, 1/5, (-3)/10] rfl ?_ ?_, ?_⟩
    · intro i hi
      have hi4 : i < 4 := hi
      interval_cases i <;>
        norm_num [List.getD_cons_zero, List.getD_cons_succ,
          reset_parameters]
    · norm_num [det4, gramL, dotL, designCol, dfLen, Matrix.cons_val_zero,
        Matrix.cons_val_one, Matrix.head_cons, Matrix.cons_val_two,
        Matrix.cons_val_three, Matrix.of_apply, List.zipWith_cons_cons,
        show List.replicate 4 (1:ℚ) = [1,1,1,1] from rfl]
    · norm_num [reset_parameters]

/-- Witness for the amended C2 at a concrete full-rank input. -/
theorem estimate_recovers_betas_exactly_witness :
    (⟨[1,0,0,0],[0,1,0,0],[0,0,1,0]⟩ : Factors).wf ∧
    ({ reset_parameters with noise := 0 } : ParameterSet).noise = 0 ∧
    det4 (gramL ⟨[1,0,0,0],[0,1,0,0],[0,0,1,0]⟩) ≠ 0 ∧
    ∃ res : RegressionResult,
      run_regression [201/200, 41/200, -59/200, 1/200]
        ⟨[1,0,0,0],[0,1,0,0],[0,0,1,0]⟩ (1/50) = .ok res ∧
      res.const = ({ reset_parameters with noise := 0 } :
          ParameterSet).alpha - 1/50 ∧
      res.mktBeta = ({ reset_parameters with noise := 0 } :
          ParameterSet).beta_mkt ∧
      res.smbBeta = ({ reset_parameters with noise := 0 } :
          ParameterSet).beta_smb ∧
      res.hmlBeta = ({ reset_parameters with noise := 0 } :
          ParameterSet).beta_hml ∧
      res.rsquared = 1 := by
  have hrank : det4 (gramL ⟨[1,0,0,0],[0,1,0,0],[0,0,1,0]⟩) ≠ 0 := by
    norm_num [det4, gramL, dotL, designCol, dfLen, Matrix.cons_val_zero,
      Matrix.cons_val_one, Matrix.head_cons, Matrix.cons_val_two,
      Matrix.cons_val_three, Matrix.of_apply, List.zipWith_cons_cons,
      show List.replicate 4 (1:ℚ) = [1,1,1,1] from rfl]
  have hrets : (fama_french_model { reset_parameters with noise := 0 }
      ⟨[1,0,0,0],[0,1,0,0],[0,0,1,0]⟩ ⟨fun _ => 0, 0⟩).1 =
      .ok [201/200, 41/200, -59/200, 1/200] := by
    norm_num [fama_french_model, normalDraws, seriesAdd, dfLen, Bind.bind,
      Except.bind, reset_parameters, show List.range 4 = [0,1,2,3] from rfl,
      List.zipWith_cons_cons]
  exact ⟨by decide, rfl, hrank,
    estimate_recovers_betas_exactly { reset_parameters with noise := 0 }
      ⟨[1,0,0,0],[0,1,0,0],[0,0,1,0]⟩ ⟨fun _ => 0, 0⟩ (1/50)
      [201/200, 41/200, -59/200, 1/200] (by decide) rfl hrets hrank⟩

/-! ### Singular designs -/

theorem design_columns_dependent_det4_zero {f : Factors} (hwf : f.wf)
    (hdep : ¬ LinearIndependent ℚ fun j : Fin 4 =>
      fun i : Fin (dfLen f) => designMatrix f i j) :
    det4 (gramL f) = 0 := by
  obtain ⟨g, hg0, j₀, hj₀⟩ := Fintype.not_linearIndependent_iff.mp hdep
  have hrow : ∀ i : Fin (dfLen f), ∑ j, designMatrix f i j * g j = 0 := by
    intro i
    have h := congrFun hg0 i
    simp only [Finset.sum_apply, Pi.smul_apply, smul_eq_mul,
      Pi.zero_apply] at h
    rw [← h]
    exact Finset.sum_congr rfl fun j _ => mul_comm _ _
  have hAg : gramL f *ᵥ g = 0 := by
    funext k
    rw [mulVec_apply4]
    have hgram : ∀ j, gramL f k j * g j = ∑ i : Fin (dfLen f),
        designMatrix f i k * (designMatrix f i j * g j) := by
      intro j
      rw [gramL_apply hwf, Finset.sum_mul]
      exact Finset.sum_congr rfl fun i _ => by ring
    rw [Finset.sum_congr rfl fun j _ => hgram j, Finset.sum_comm]
    simp only [Pi.zero_apply]
    refine Finset.sum_eq_zero fun i _ => ?_
    rw [← Finset.mul_sum, hrow i, mul_zero]
  by_contra hne
  have h1 := det4_updateColumn_mulVec (gramL f) g j₀
  rw [hAg, show (0 : Fin 4 → ℚ) = fun _ => 0 from rfl,
    det4_updateColumn_zero] at h1
  exact hj₀ ((mul_eq_zero.mp h1.symm).resolve_left hne)

/-- Claim C3. For every input whose design matrix — the three factor columns
with an intercept column appended — is not of full column rank, and in
particular for every call of `estimate` with `N = 3` observations (four
coefficients cannot be independent over three observations), the estimator
fails with a `SingularDesign` error rather than returning a
`RegressionResult`. -/
theorem estimate_singular_design (rets : List ℚ) (f : Factors) (rf : ℚ)
    (hwf : f.wf)
    (h : ¬ LinearIndependent ℚ (fun j : Fin 4 =>
        fun i : Fin (dfLen f) => designMatrix f i j) ∨ dfLen f = 3) :
    run_regression rets f rf = .error .SingularDesign := by
  have hdep : ¬ LinearIndependent ℚ fun j : Fin 4 =>
      fun i : Fin (dfLen f) => designMatrix f i j := by
    rcases h with h | h3
    · exact h
    · intro hli
      have hcard := hli.fintype_card_le_finrank
      rw [Module.finrank_pi] at hcard
      simp [Fintype.card_fin, h3] at hcard
  have hdet := design_columns_dependent_det4_zero hwf hdep
  simp [run_regression, hdet]

/-- Witness for C3: any call with `N = 3` observations fails with
`SingularDesign`. -/
theorem estimate_singular_design_witness :
    run_regression [1, 2, 3] ⟨[1, 2, 3], [4, 5, 6], [7, 8, 10]⟩ (1/50) =
      .error .SingularDesign :=
  estimate_singular_design [1, 2, 3] ⟨[1, 2, 3], [4, 5, 6], [7, 8, 10]⟩
    (1/50) (by decide) (Or.inr rfl)

/-! ### The all-zero-factors scenario -/

theorem getD_zero_list : ∀ (l : List ℚ), (∀ x ∈ l, x = 0) → ∀ i : ℕ,
    l.getD i 0 = 0
  | [], _, i => by simp
  | a :: l, hl, 0 => by simpa using hl a (by simp)
  | a :: l, hl, (i + 1) => by
      simpa using getD_zero_list l (fun x hx => hl x (by simp [hx])) i

theorem zero_mkt_gram_singular {f : Factors} (hwf : f.wf)
    (hmkt : ∀ x ∈ f.mkt, x = 0) : det4 (gramL f) = 0 := by
  refine design_columns_dependent_det4_zero hwf ?_
  refine Fintype.not_linearIndependent_iff.mpr
    ⟨![0, 1, 0, 0], ?_, 1, by norm_num⟩
  funext i
  simp only [Fin.sum_univ_four, Matrix.cons_val_zero, Matrix.cons_val_one,
    Matrix.head_cons, Matrix.cons_val_two, Matrix.cons_val_three,
    Matrix.tail_cons, Pi.smul_apply, smul_eq_mul, zero_mul, one_mul,
    Finset.sum_apply, Pi.zero_apply, zero_add, add_zero, Pi.add_apply]
  exact getD_zero_list f.mkt hmkt i

/-- Claim C6, amended. With the Default preset's alpha `0.005` and risk-free
rate `0.02`, noise set to `0`, and a factor series that is identically zero
for 10 periods, `simulate_returns` returns the constant sequence `0.005`
for all 10 periods; `estimate` on those returns and the zero factors then
fails with `SingularDesign` — the zero factor columns make the design
matrix rank-deficient — rather than reporting zero beta estimates. -/
theorem default_zero_factors_scenario (s : RNGState) :
    ∃ rs : List ℚ,
      (fama_french_model { reset_parameters with noise := 0 }
        ⟨[0, 0, 0, 0, 0, 0, 0, 0, 0, 0], [0, 0, 0, 0, 0, 0, 0, 0, 0, 0],
          [0, 0, 0, 0, 0, 0, 0, 0, 0, 0]⟩ s).1 = .ok rs ∧
      rs.length = 10 ∧ (∀ i < 10, rs.getD i 0 = 0.005) ∧
      run_regression rs
        ⟨[0, 0, 0, 0, 0, 0, 0, 0, 0, 0], [0, 0, 0, 0, 0, 0, 0, 0, 0, 0],
          [0, 0, 0, 0, 0, 0, 0, 0, 0, 0]⟩ reset_parameters.risk_free =
        .error .SingularDesign := by
  have hwf : (⟨[0, 0, 0, 0, 0, 0, 0, 0, 0, 0],
      [0, 0, 0, 0, 0, 0, 0, 0, 0, 0],
      [0, 0, 0, 0, 0, 0, 0, 0, 0, 0]⟩ : Factors).wf := by decide
  have hdet := zero_mkt_gram_singular hwf (by decide)
  refine ⟨_, fama_french_model_ok _ _ s hwf, by simp [dfLen], ?_, ?_⟩
  · intro i hi
    rw [getD_lt (by simp [dfLen, hi])]
    simp only [List.getElem_map, List.getElem_range]
    rw [getD_zero_list ([0, 0, 0, 0, 0, 0, 0, 0, 0, 0] : List ℚ)
      (by decide) i]
    norm_num [reset_parameters]
  · simp [run_regression, hdet]

/-- Counterexample to C6 as stated: on the all-zero 10-period factor
series, the estimator rejects the design as singular; it does not return a
`RegressionResult` with zero betas and intercept `0.005 − risk_free`. -/
theorem default_zero_factors_counterexample :
    run_regression [0.005, 0.005, 0.005, 0.005, 0.005, 0.005, 0.005, 0.005,
        0.005, 0.005]
      ⟨[0, 0, 0, 0, 0, 0, 0, 0, 0, 0], [0, 0, 0, 0, 0, 0, 0, 0, 0, 0],
        [0, 0, 0, 0, 0, 0, 0, 0, 0, 0]⟩ 0.02 = .error .SingularDesign ∧
    ¬ ∃ res : RegressionResult,
      run_regression [0.005, 0.005, 0.005, 0.005, 0.005, 0.005, 0.005,
          0.005, 0.005, 0.005]
        ⟨[0, 0, 0, 0, 0, 0, 0, 0, 0, 0], [0, 0, 0, 0, 0, 0, 0, 0, 0, 0],
          [0, 0, 0, 0, 0, 0, 0, 0, 0, 0]⟩ 0.02 = .ok res ∧
      res.mktBeta = 0 ∧ res.smbBeta = 0 ∧ res.hmlBeta = 0 ∧
      res.const = 0.005 - 0.02 := by
  have hdet := zero_mkt_gram_singular
    (f := ⟨[0, 0, 0, 0, 0, 0, 0, 0, 0, 0], [0, 0, 0, 0, 0, 0, 0, 0, 0, 0],
      [0, 0, 0, 0, 0, 0, 0, 0, 0, 0]⟩) (by decide) (by decide)
  have herr : run_regression [0.005, 0.005, 0.005, 0.005, 0.005, 0.005,
      0.005, 0.005, 0.005, 0.005]
      ⟨[0, 0, 0, 0, 0, 0, 0, 0, 0, 0], [0, 0, 0, 0, 0, 0, 0, 0, 0, 0],
        [0, 0, 0, 0, 0, 0, 0, 0, 0, 0]⟩ 0.02 = .error .SingularDesign := by
    simp [run_regression, hdet]
  refine ⟨herr, fun ⟨res, hres, _⟩ => ?_⟩
  rw [herr] at hres
  exact Except.noConfusion hres

/-- Witness for the amended C6 at a concrete RNG state. -/
theorem default_zero_factors_scenario_witness :
    ∃ rs : List ℚ,
      (fama_french_model { reset_parameters with noise := 0 }
        ⟨[0, 0, 0, 0, 0, 0, 0, 0, 0, 0], [0, 0, 0, 0, 0, 0, 0, 0, 0, 0],
          [0, 0, 0, 0, 0, 0, 0, 0, 0, 0]⟩ ⟨fun _ => 0, 0⟩).1 = .ok rs ∧
      rs.length = 10 ∧ (∀ i < 10, rs.getD i 0 = 0.005) ∧
      run_regression rs
        ⟨[0, 0, 0, 0, 0, 0, 0, 0, 0, 0], [0, 0, 0, 0, 0, 0, 0, 0, 0, 0],
          [0, 0, 0, 0, 0, 0, 0, 0, 0, 0]⟩ reset_parameters.risk_free =
        .error .SingularDesign :=
  default_zero_factors_scenario ⟨fun _ => 0, 0⟩
